import Mathlib

/-!
Shallow embedding of the A* grid pathfinder (`src/main.py`).

The embedding covers the `Board` class (the grid state machine: `draw_position`,
`erase`, `remove_paths`, `run_pathfinding`, `reset_board`, `place_start`,
`place_end`, `get_state`, `toggle_diagonal_movement`), the search `Cell` class,
and the driver loop's primary/secondary mouse actions.  The UI layer (pygame
rendering, buttons) is out of scope, exactly as in the specification.

Modelling conventions:
  * the numpy `board` array becomes `List (List Nat)` with the numeric cell
    codes of `BOARD_STATES` (0=OFF, 1=ON, 2=START, 3=END, 4=PATH);
  * pixel positions are `Int × Int`; Python's floor division `//` is `Int.fdiv`;
  * a search cell's float `total_cost = cost + sqrt(sqdist)` is represented
    exactly by the pair `(cost, sqdist) : Nat × Nat`; the comparison `leF`
    decides `cost₁ + √sqdist₁ ≤ cost₂ + √sqdist₂` over the reals (lemma
    `leF_iff_real` below), which agrees with the float comparison on every
    small configuration exercised here;
  * the unbounded `while` loop of `run_pathfinding` takes a fuel parameter;
    `RunOutcome.fuelOut` marks fuel exhaustion and corresponds to no program
    behaviour (it never occurs when enough fuel is supplied).
-/

namespace AStar

/-- `PIXELS_PER_UNIT` from the source. -/
def PIXELS_PER_UNIT : Int := 20

/-- Squared Euclidean distance between two integer positions; the source's
`euclidean_distance(start, end)` is `Real.sqrt` of this value (the sum of two
squares, hence nonnegative, so `toNat` loses nothing). -/
def distSq (a b : Int × Int) : Nat :=
  ((a.1 - b.1) * (a.1 - b.1) + (a.2 - b.2) * (a.2 - b.2)).toNat

/-- Decides `c₁ + √s₁ ≤ c₂ + √s₂` for naturals, by squaring out the radicals.
This is the exact-real comparison of the `total_cost` floats
(`cost + math.sqrt(squared distance)`) used by the source. -/
def leF (c₁ s₁ c₂ s₂ : Nat) : Bool :=
  if c₁ ≤ c₂ then
    if s₁ ≤ (c₂ - c₁) * (c₂ - c₁) + s₂ then true
    else decide ((s₁ - ((c₂ - c₁) * (c₂ - c₁) + s₂)) ^ 2 ≤
      4 * ((c₂ - c₁) * (c₂ - c₁)) * s₂)
  else
    if s₂ < (c₁ - c₂) * (c₁ - c₂) + s₁ then false
    else decide (4 * ((c₁ - c₂) * (c₁ - c₂)) * s₁ ≤
      (s₂ - ((c₁ - c₂) * (c₁ - c₂) + s₁)) ^ 2)

/-- Strict comparison `c₁ + √s₁ < c₂ + √s₂`, as the negation of the reverse
`leF` (the underlying real order is total). -/
def ltF (c₁ s₁ c₂ s₂ : Nat) : Bool :=
  ! leF c₂ s₂ c₁ s₁

/-- The search `Cell` of the source: a position, the squared distance to the
goal recorded at construction time (`estimated_cost_to_end` is its square
root), and the parent chain.  `cost` (G) is 1 at the root and parent+1 for a
child, exactly as in `Cell.__init__`. -/
inductive Cell where
  | root (position : Int × Int) (estSq : Nat)
  | child (position : Int × Int) (estSq : Nat) (parent : Cell)
deriving DecidableEq, Repr

/-- The `position` attribute. -/
def Cell.position : Cell → Int × Int
  | .root p _ => p
  | .child p _ _ => p

/-- The squared `estimated_cost_to_end` (H²). -/
def Cell.estSq : Cell → Nat
  | .root _ s => s
  | .child _ s _ => s

/-- `cost` (G): 1 for a root, parent's cost + 1 for a child. -/
def Cell.cost : Cell → Nat
  | .root _ _ => 1
  | .child _ _ par => par.cost + 1

/-- Mirrors `Cell(position, goal, euclidean_distance, parent)`. -/
def mkCell (position goal : Int × Int) (parent : Option Cell) : Cell :=
  match parent with
  | none => .root position (distSq position goal)
  | some par => .child position (distSq position goal) par

/-- `a.total_cost ≤ b.total_cost` (exact-real comparison of F values). -/
def Cell.totalLe (a b : Cell) : Bool :=
  leF a.cost a.estSq b.cost b.estSq

/-- `a.total_cost < b.total_cost`. -/
def Cell.totalLt (a b : Cell) : Bool :=
  ltF a.cost a.estSq b.cost b.estSq

/-- Python's `min(open, key=lambda x: x.total_cost)`: scan left to right,
replacing the current best only on a strictly smaller key, so the first
minimal element wins. -/
def selectMin : Cell → List Cell → Cell
  | best, [] => best
  | best, c :: cs => selectMin (if c.totalLt best then c else best) cs

/-- Python's `open.remove(current_node)`: removes the first list element
`==`-equal to the argument, and `Cell.__eq__` compares positions only, so the
first cell with the same position is removed. -/
def removeByPos : List Cell → Int × Int → List Cell
  | [], _ => []
  | c :: cs, p => if c.position = p then cs else c :: removeByPos cs p

/-- The chain of positions from a node back to the root, in backtrace order
(`while current_path_item is not None: ...; current_path_item = parent`). -/
def Cell.chain : Cell → List (Int × Int)
  | .root p _ => [p]
  | .child p _ par => p :: par.chain

/-- The board array. -/
abbrev Brd := List (List Nat)

/-- Read `board[y, x]` (out-of-range reads default to 0; every read in the
source is guarded by the bounds checks). -/
def bget (b : Brd) (y x : Nat) : Nat :=
  (b.getD y []).getD x 0

/-- Write `board[y, x] = v` (out-of-range writes are the identity; every write
in the source is guarded by the bounds checks). -/
def bset (b : Brd) (y x : Nat) (v : Nat) : Brd :=
  b.set y ((b.getD y []).set x v)

/-- Read at an integer position `(y, x)`. -/
def bgetZ (b : Brd) (p : Int × Int) : Nat :=
  bget b p.1.toNat p.2.toNat

/-- Write at an integer position `(y, x)`. -/
def bsetZ (b : Brd) (p : Int × Int) (v : Nat) : Brd :=
  bset b p.1.toNat p.2.toNat v

/-- The `Board` class state: cached `start`/`end` positions (stored `(y, x)`),
the placing flags, dimensions, the `path_drawn` flag, the cell array and the
diagonal-movement mode.  (`end` is a Lean keyword, hence `end'`.) -/
structure Board where
  start : Option (Int × Int)
  end' : Option (Int × Int)
  placing_start : Bool
  placing_end : Bool
  width : Nat
  height : Nat
  path_drawn : Bool
  board : Brd
  diagonal : Bool
deriving DecidableEq, Repr

/-- `Board.__init__(width, height)`: everything empty, diagonal on. -/
def mkBoard (w h : Nat) : Board :=
  { start := none, end' := none, placing_start := false, placing_end := false,
    width := w, height := h, path_drawn := false,
    board := List.replicate h (List.replicate w 0), diagonal := true }

/-- The cell-array part of `Board.remove_paths`: every PATH (4) cell back to
OFF (0). -/
def clearPaths (b : Brd) : Brd :=
  b.map (fun row => row.map (fun v => if v = 4 then 0 else v))

/-- The `if self.path_drawn: self.remove_paths(message=False)` prologue shared
by `draw_position`, `erase` and `run_pathfinding`. -/
def clearState (s : Board) : Board :=
  if s.path_drawn then { s with board := clearPaths s.board, path_drawn := false }
  else s

/-- `Board.draw_position(position, value)`: pixel-to-cell conversion by floor
division (`x = position[0] // PPU`, `y = position[1] // PPU`), bounds check
(before any path clearing), path clearing, occupied check, then recording
`start`/`end` for values 2/3 and writing the cell.  Returns the Python result
code (0 success, 1 rejected) with the new state. -/
def draw_position (s : Board) (position : Int × Int) (value : Nat) : Nat × Board :=
  if position.1.fdiv PIXELS_PER_UNIT < 0 ∨
     (s.width : Int) ≤ position.1.fdiv PIXELS_PER_UNIT ∨
     position.2.fdiv PIXELS_PER_UNIT < 0 ∨
     (s.height : Int) ≤ position.2.fdiv PIXELS_PER_UNIT then (1, s)
  else if bget (clearState s).board (position.2.fdiv PIXELS_PER_UNIT).toNat
      (position.1.fdiv PIXELS_PER_UNIT).toNat ≠ 0 then
    (1, clearState s)
  else if value = 2 then
    (0, { clearState s with
          start := some (position.2.fdiv PIXELS_PER_UNIT,
                         position.1.fdiv PIXELS_PER_UNIT),
          board := bset (clearState s).board
            (position.2.fdiv PIXELS_PER_UNIT).toNat
            (position.1.fdiv PIXELS_PER_UNIT).toNat value })
  else if value = 3 then
    (0, { clearState s with
          end' := some (position.2.fdiv PIXELS_PER_UNIT,
                        position.1.fdiv PIXELS_PER_UNIT),
          board := bset (clearState s).board
            (position.2.fdiv PIXELS_PER_UNIT).toNat
            (position.1.fdiv PIXELS_PER_UNIT).toNat value })
  else
    (0, { clearState s with
          board := bset (clearState s).board
            (position.2.fdiv PIXELS_PER_UNIT).toNat
            (position.1.fdiv PIXELS_PER_UNIT).toNat value })

/-- `Board.erase(position)`: path clearing happens before the bounds check
(this ordering is taken from the source), then the cached `start`/`end` is
dropped when the erased cell holds it, and the cell is set to OFF. -/
def erase (s : Board) (position : Int × Int) : Nat × Board :=
  if position.1.fdiv PIXELS_PER_UNIT < 0 ∨
     (s.width : Int) ≤ position.1.fdiv PIXELS_PER_UNIT ∨
     position.2.fdiv PIXELS_PER_UNIT < 0 ∨
     (s.height : Int) ≤ position.2.fdiv PIXELS_PER_UNIT then (1, clearState s)
  else if bget (clearState s).board (position.2.fdiv PIXELS_PER_UNIT).toNat
      (position.1.fdiv PIXELS_PER_UNIT).toNat = 2 then
    (0, { clearState s with
          start := none,
          board := bset (clearState s).board
            (position.2.fdiv PIXELS_PER_UNIT).toNat
            (position.1.fdiv PIXELS_PER_UNIT).toNat 0 })
  else if bget (clearState s).board (position.2.fdiv PIXELS_PER_UNIT).toNat
      (position.1.fdiv PIXELS_PER_UNIT).toNat = 3 then
    (0, { clearState s with
          end' := none,
          board := bset (clearState s).board
            (position.2.fdiv PIXELS_PER_UNIT).toNat
            (position.1.fdiv PIXELS_PER_UNIT).toNat 0 })
  else
    (0, { clearState s with
          board := bset (clearState s).board
            (position.2.fdiv PIXELS_PER_UNIT).toNat
            (position.1.fdiv PIXELS_PER_UNIT).toNat 0 })

/-- The neighbour offsets, in source order; the four diagonal ones only when
diagonal movement is enabled. -/
def childOffsets (diag : Bool) : List (Int × Int) :=
  if diag then [(0, -1), (0, 1), (-1, 0), (1, 0), (-1, -1), (-1, 1), (1, -1), (1, 1)]
  else [(0, -1), (0, 1), (-1, 0), (1, 0)]

/-- The children-generation loop: offset the current position, skip it when out
of bounds or when the cell is a wall (ON = 1), otherwise build the child cell. -/
def genChildren (w h : Nat) (b : Brd) (endP : Int × Int) (diag : Bool)
    (cur : Cell) : List Cell :=
  (childOffsets diag).filterMap fun off =>
    let cp := (cur.position.1 + off.1, cur.position.2 + off.2)
    if (h : Int) ≤ cp.1 ∨ (w : Int) ≤ cp.2 ∨ cp.1 < 0 ∨ cp.2 < 0 then none
    else if bgetZ b cp = 1 then none
    else some (mkCell cp endP (some cur))

/-- The closed-list scan (`for closed_list_member in closed: if child ==
member: break`): true exactly when some closed cell shares the child's
position. -/
def inClosed (closed : List Cell) (child : Cell) : Bool :=
  closed.any fun m => m.position = child.position

/-- The open-list scan: true exactly when some open cell shares the child's
position with `child.total_cost >= open_cell.total_cost`. -/
def blockedByOpen (opn : List Cell) (child : Cell) : Bool :=
  opn.any fun o => o.position = child.position && o.totalLe child

/-- One child's treatment in the `for child in children` loop: skip when the
position is closed, skip when an equal-or-better same-position open cell
exists, otherwise append. -/
def addChild (opn closed : List Cell) (child : Cell) : List Cell :=
  if inClosed closed child then opn
  else if blockedByOpen opn child then opn
  else opn ++ [child]

/-- The whole `for child in children` loop; later children are checked against
the open list as already extended by earlier ones, as in the source. -/
def processChildren (opn : List Cell) (closed : List Cell)
    (children : List Cell) : List Cell :=
  children.foldl (fun o ch => addChild o closed ch) opn

/-- The backtrace marking: along the chain, set every cell that is currently
OFF (0) to PATH (4); START/END/ON cells are left alone. -/
def markPath (b : Brd) : List (Int × Int) → Brd
  | [] => b
  | p :: ps => markPath (if bgetZ b p = 0 then bsetZ b p 4 else b) ps

/-- The possible outcomes of one `run_pathfinding` call: Python returns 0 on
success, 1 when start/end is missing, and falls off the function (returning
`None`) on frontier exhaustion.  `fuelOut` is the fuel cutoff of the
embedding, not a program behaviour. -/
inductive RunOutcome where
  | success
  | missing
  | exhausted
  | fuelOut
deriving DecidableEq, Repr

/-- The `while len(open) != 0` loop of `run_pathfinding`, with fuel.  Selects
the first minimal-F open cell, removes the first open cell with that position,
appends the selected cell to closed, finishes by backtracing when the selected
position is the goal, and otherwise expands its children. -/
def loop (w h : Nat) (endP : Int × Int) (diag : Bool) :
    Nat → List Cell → List Cell → Brd → RunOutcome × Brd
  | _, [], _, b => (.exhausted, b)
  | 0, _ :: _, _, b => (.fuelOut, b)
  | f + 1, c :: cs, closed, b =>
    if (selectMin c cs).position = endP then
      (.success, markPath b (selectMin c cs).chain)
    else
      loop w h endP diag f
        (processChildren (removeByPos (c :: cs) (selectMin c cs).position)
          (closed ++ [selectMin c cs])
          (genChildren w h b endP diag (selectMin c cs)))
        (closed ++ [selectMin c cs]) b

/-- `Board.run_pathfinding()`: precondition check on `start`/`end` (returning
the missing-endpoint code with no mutation), clearing of a previously drawn
path, then the search loop starting from the open list `[Cell(start, end,
euclidean_distance)]` and an empty closed list; on success the marked board
is stored and `path_drawn` is set. -/
def run_pathfinding (fuel : Nat) (s : Board) : RunOutcome × Board :=
  match s.start, s.end' with
  | some st, some en =>
    match loop s.width s.height en s.diagonal fuel [mkCell st en none] []
        (if s.path_drawn then clearPaths s.board else s.board) with
    | (.success, b2) => (.success, { s with board := b2, path_drawn := true })
    | (out, b2) => (out, { s with board := b2, path_drawn := false })
  | _, _ => (.missing, s)

/-- `Board.reset_board()`: fresh cells, no start/end, flags down; the diagonal
mode is preserved. -/
def reset_board (s : Board) : Board :=
  { s with board := List.replicate s.height (List.replicate s.width 0),
           start := none, end' := none, placing_end := false,
           placing_start := false, path_drawn := false }

/-- `Board.place_start()`: refused when a start exists, else raises the
placing-start flag and lowers the placing-end flag. -/
def place_start (s : Board) : Board :=
  if s.start ≠ none then s
  else { s with placing_end := false, placing_start := true }

/-- `Board.place_end()`: symmetric. -/
def place_end (s : Board) : Board :=
  if s.end' ≠ none then s
  else { s with placing_end := true, placing_start := false }

/-- `Board.get_state()`: the value a primary click paints. -/
def get_state (s : Board) : Nat :=
  if s.placing_start then 2
  else if s.placing_end then 3
  else 1

/-- `Board.toggle_diagonal_movement()`. -/
def toggle_diagonal_movement (s : Board) : Board :=
  { s with diagonal := !s.diagonal }

/-- The public operations the driver loop can issue against the board. -/
inductive Act where
  | placeStart
  | placeEnd
  | primary (p : Int × Int)
  | secondary (p : Int × Int)
  | runA (fuel : Nat)
  | reset
  | toggleDiag
deriving DecidableEq, Repr

/-- One driver-loop step.  A primary click paints `get_state` and, exactly when
the draw succeeds (`draw_success == 0`), lowers both placing flags; a secondary
click erases. -/
def step (s : Board) : Act → Board
  | .placeStart => place_start s
  | .placeEnd => place_end s
  | .primary p =>
    let r := draw_position s p (get_state s)
    if r.1 = 0 then { r.2 with placing_start := false, placing_end := false }
    else r.2
  | .secondary p => (erase s p).2
  | .runA fuel => (run_pathfinding fuel s).2
  | .reset => reset_board s
  | .toggleDiag => toggle_diagonal_movement s

/-- Folding a sequence of driver actions from a state. -/
def applyActs (s : Board) : List Act → Board
  | [] => s
  | a :: as' => applyActs (step s a) as'

/-- The cell position `(y, x)` a pixel position converts to, by the floor
divisions at the top of `draw_position`/`erase`. -/
def pxToCell (p : Int × Int) : Int × Int :=
  (p.2.fdiv PIXELS_PER_UNIT, p.1.fdiv PIXELS_PER_UNIT)

/-- The bounds-rejection condition of `draw_position` and `erase`, verbatim:
the converted cell coordinates fall outside `[0,width) × [0,height)`. -/
abbrev outOfBounds (s : Board) (p : Int × Int) : Prop :=
  p.1.fdiv PIXELS_PER_UNIT < 0 ∨ (s.width : Int) ≤ p.1.fdiv PIXELS_PER_UNIT ∨
  p.2.fdiv PIXELS_PER_UNIT < 0 ∨ (s.height : Int) ≤ p.2.fdiv PIXELS_PER_UNIT

/-- The complement of `outOfBounds`. -/
abbrev inBounds (s : Board) (p : Int × Int) : Prop :=
  ¬ outOfBounds s p

/-- A position `(y, x)` addressing an actual entry of the cell array. -/
abbrev inArray (b : Brd) (q : Int × Int) : Prop :=
  0 ≤ q.1 ∧ 0 ≤ q.2 ∧ q.1.toNat < b.length ∧ q.2.toNat < (b.getD q.1.toNat []).length

/-- The board-state invariant: the cell array has the advertised dimensions,
a raised placing flag means the corresponding endpoint is still unset, and
the cached `start`/`end` agree exactly with the cells holding START (2) /
END (3) — which in particular makes such cells unique. -/
structure Inv (s : Board) : Prop where
  rows : s.board.length = s.height
  cols : ∀ i : Nat, i < s.height → (s.board.getD i []).length = s.width
  psOK : s.placing_start = true → s.start = none
  peOK : s.placing_end = true → s.end' = none
  startOK : ∀ y x : Nat, bget s.board y x = 2 ↔ s.start = some ((y : Int), (x : Int))
  endOK : ∀ y x : Nat, bget s.board y x = 3 ↔ s.end' = some ((y : Int), (x : Int))

/-- A 3×3 board with a previously drawn path: start `(0,0)`, end `(2,2)`,
walls around the centre, the cell `(2,1)` holding PATH and `path_drawn` set.
(The same shape arises by painting the walls, running with diagonal movement
and then erasing/painting; it is used as a concrete probe state.) -/
def pathState : Board :=
  { start := some (0, 0), end' := some (2, 2), placing_start := false,
    placing_end := false, width := 3, height := 3, path_drawn := true,
    board := [[2, 1, 0], [1, 1, 1], [0, 4, 3]], diagonal := true }

/-- A reachable state built by driver actions on a fresh 3×3 board: start
`(0,0)`, end `(2,2)`, the four orthogonal neighbours of the centre walled,
a first (diagonal) run that draws PATH at `(1,1)`, then the diagonal toggle.
Its `path_drawn` is true while only a diagonal path ever existed. -/
def c2state : Board :=
  applyActs (mkBoard 3 3)
    [.placeStart, .primary (0, 0), .placeEnd, .primary (40, 40),
     .primary (20, 0), .primary (0, 20), .primary (40, 20), .primary (20, 40),
     .runA 50, .toggleDiag]

/-- The 5×5 configuration of the spec's example: fresh board, start `(0,0)`
(pixel `(0,0)`), end `(4,4)` (pixel `(80,80)`), diagonal movement on. -/
def c8state : Board :=
  applyActs (mkBoard 5 5)
    [.placeStart, .primary (0, 0), .placeEnd, .primary (80, 80)]

/-- The state `run_pathfinding` produces from `c8state` (checked by the C8
theorem): the three interior diagonal cells hold PATH, the endpoints are
retained. -/
def c8out : Board :=
  { start := some (0, 0), end' := some (4, 4), placing_start := false,
    placing_end := false, width := 5, height := 5, path_drawn := true,
    board := [[2, 0, 0, 0, 0], [0, 4, 0, 0, 0], [0, 0, 4, 0, 0],
              [0, 0, 0, 4, 0], [0, 0, 0, 0, 3]], diagonal := true }

/-- A 2×2 board with a stray PATH cell at `(0,1)` and `path_drawn` set. -/
def c10a : Board :=
  { start := some (0, 0), end' := some (1, 1), placing_start := false,
    placing_end := false, width := 2, height := 2, path_drawn := true,
    board := [[2, 4], [0, 3]], diagonal := true }

/-- The same cells, start, end and mode as `c10a`, but `path_drawn` unset. -/
def c10b : Board :=
  { c10a with path_drawn := false }

/-- A small concrete search cell used to instantiate universally quantified
theorems. -/
def probeCell : Cell :=
  Cell.root (0, 0) 2

/-! ## Pointwise lemmas about the board array -/

theorem getD_set' {α : Type} (l : List α) (i : Nat) (a : α) (j : Nat) (d : α) :
    (l.set i a).getD j d = if j = i ∧ i < l.length then a else l.getD j d := by
  rcases eq_or_ne j i with rfl | hne
  · rcases Nat.lt_or_ge j l.length with h | h
    · rw [List.getD_eq_getElem?_getD, List.getElem?_set_eq_of_lt _ h]
      simp [h]
    · rw [List.set_eq_of_length_le h]
      simp [Nat.not_lt.2 h]
  · rw [List.getD_eq_getElem?_getD, List.getElem?_set_ne (Ne.symm hne),
      ← List.getD_eq_getElem?_getD]
    simp [hne]

theorem bget_bset (b : Brd) (y x v y' x' : Nat) :
    bget (bset b y x v) y' x' =
      if y' = y ∧ x' = x ∧ y < b.length ∧ x < (b.getD y []).length then v
      else bget b y' x' := by
  unfold bget bset
  rw [getD_set']
  by_cases hy : y' = y
  · subst hy
    by_cases hyl : y' < b.length
    · rw [if_pos ⟨rfl, hyl⟩, getD_set']
      by_cases hx : x' = x
      · subst hx
        by_cases hxl : x' < (b.getD y' []).length <;> simp [hxl, hyl]
      · simp [hx]
    · simp [hyl]
  · simp [hy]

theorem length_bset (b : Brd) (y x v : Nat) : (bset b y x v).length = b.length :=
  List.length_set b y _

theorem getD_bset_length (b : Brd) (y x v i : Nat) :
    ((bset b y x v).getD i []).length = (b.getD i []).length := by
  unfold bset
  rw [getD_set']
  by_cases h : i = y ∧ y < b.length
  · rw [if_pos h, h.1, List.length_set]
  · rw [if_neg h]

theorem getD_map_row (g : Nat → Nat) (b : Brd) (y : Nat) :
    (b.map (fun row => row.map g)).getD y [] = (b.getD y []).map g := by
  rw [List.getD_eq_getElem?_getD _ y [], List.getElem?_map,
    List.getD_eq_getElem?_getD b y []]
  cases b[y]? <;> simp

theorem getD_map_entry (g : Nat → Nat) (row : List Nat) (x : Nat)
    (hg : g 0 = 0) : (row.map g).getD x 0 = g (row.getD x 0) := by
  rw [List.getD_eq_getElem?_getD _ x 0, List.getElem?_map,
    List.getD_eq_getElem?_getD row x 0]
  cases row[x]? <;> simp [hg]

theorem bget_clearPaths (b : Brd) (y x : Nat) :
    bget (clearPaths b) y x = if bget b y x = 4 then 0 else bget b y x := by
  unfold bget clearPaths
  rw [getD_map_row, getD_map_entry]
  rfl

theorem length_clearPaths (b : Brd) : (clearPaths b).length = b.length :=
  List.length_map b _

theorem getD_clearPaths_length (b : Brd) (i : Nat) :
    ((clearPaths b).getD i []).length = (b.getD i []).length := by
  unfold clearPaths
  rw [getD_map_row, List.length_map]

theorem getD_replicate_row (h w y : Nat) :
    (List.replicate h (List.replicate w (0 : Nat))).getD y [] =
      if y < h then List.replicate w 0 else [] := by
  rw [List.getD_eq_getElem?_getD _ y [], List.getElem?_replicate]
  by_cases hy : y < h <;> simp [hy]

theorem bget_replicate (h w y x : Nat) :
    bget (List.replicate h (List.replicate w (0 : Nat))) y x = 0 := by
  unfold bget
  rw [getD_replicate_row]
  by_cases hy : y < h
  · rw [if_pos hy, List.getD_eq_getElem?_getD _ x 0, List.getElem?_replicate]
    by_cases hx : x < w <;> simp [hx]
  · rw [if_neg hy]
    rfl

/-! ## Lemmas about `clearState` -/

@[simp] theorem clearState_start (s : Board) : (clearState s).start = s.start := by
  unfold clearState; split <;> rfl

@[simp] theorem clearState_end (s : Board) : (clearState s).end' = s.end' := by
  unfold clearState; split <;> rfl

@[simp] theorem clearState_placing_start (s : Board) :
    (clearState s).placing_start = s.placing_start := by
  unfold clearState; split <;> rfl

@[simp] theorem clearState_placing_end (s : Board) :
    (clearState s).placing_end = s.placing_end := by
  unfold clearState; split <;> rfl

@[simp] theorem clearState_width (s : Board) : (clearState s).width = s.width := by
  unfold clearState; split <;> rfl

@[simp] theorem clearState_height (s : Board) : (clearState s).height = s.height := by
  unfold clearState; split <;> rfl

@[simp] theorem clearState_diagonal (s : Board) :
    (clearState s).diagonal = s.diagonal := by
  unfold clearState; split <;> rfl

@[simp] theorem clearState_path_drawn (s : Board) :
    (clearState s).path_drawn = false := by
  unfold clearState
  split
  · rfl
  · next h => simpa using h

theorem bget_clearState (s : Board) (y x : Nat) :
    bget (clearState s).board y x =
      if s.path_drawn = true ∧ bget s.board y x = 4 then 0
      else bget s.board y x := by
  unfold clearState
  by_cases h : s.path_drawn = true
  · rw [if_pos h]
    show bget (clearPaths s.board) y x = _
    rw [bget_clearPaths]
    by_cases h4 : bget s.board y x = 4 <;> simp [h, h4]
  · rw [if_neg h]
    simp [h]

theorem length_clearState (s : Board) :
    (clearState s).board.length = s.board.length := by
  unfold clearState
  split
  · exact length_clearPaths _
  · rfl

theorem getD_clearState_length (s : Board) (i : Nat) :
    ((clearState s).board.getD i []).length = (s.board.getD i []).length := by
  unfold clearState
  split
  · exact getD_clearPaths_length _ _
  · rfl

/-! ## Shape lemmas for `draw_position` and `erase` -/

theorem draw_position_oob (s : Board) (p : Int × Int) (v : Nat)
    (h : outOfBounds s p) : draw_position s p v = (1, s) := by
  unfold draw_position
  exact if_pos h

theorem erase_oob (s : Board) (p : Int × Int) (h : outOfBounds s p) :
    erase s p = (1, clearState s) := by
  unfold erase
  exact if_pos h

theorem erase_path_drawn (s : Board) (p : Int × Int) :
    (erase s p).2.path_drawn = false := by
  unfold erase
  split
  · exact clearState_path_drawn s
  · split
    · exact clearState_path_drawn s
    · split
      · exact clearState_path_drawn s
      · exact clearState_path_drawn s

theorem erase_clears (s : Board) (p : Int × Int) (y x : Nat)
    (hp : s.path_drawn = true) (h4 : bget s.board y x = 4) :
    bget (erase s p).2.board y x = 0 := by
  have h0 : bget (clearState s).board y x = 0 := by
    rw [bget_clearState, if_pos ⟨hp, h4⟩]
  have hset : ∀ a b : Nat, bget (bset (clearState s).board a b 0) y x = 0 := by
    intro a b
    rw [bget_bset]
    split
    · rfl
    · exact h0
  unfold erase
  split
  · exact h0
  · split
    · exact hset _ _
    · split
      · exact hset _ _
      · exact hset _ _

theorem draw_position_path_drawn (s : Board) (p : Int × Int) (v : Nat)
    (h : inBounds s p) : (draw_position s p v).2.path_drawn = false := by
  unfold draw_position
  rw [if_neg h]
  split
  · exact clearState_path_drawn s
  · split
    · exact clearState_path_drawn s
    · split
      · exact clearState_path_drawn s
      · exact clearState_path_drawn s

theorem draw_position_clears (s : Board) (p : Int × Int) (v : Nat) (y x : Nat)
    (h : inBounds s p) (hp : s.path_drawn = true) (h4 : bget s.board y x = 4) :
    bget (draw_position s p v).2.board y x = 0 ∨
    bget (draw_position s p v).2.board y x = v := by
  have h0 : bget (clearState s).board y x = 0 := by
    rw [bget_clearState, if_pos ⟨hp, h4⟩]
  have hset : ∀ a b : Nat, bget (bset (clearState s).board a b v) y x = 0 ∨
      bget (bset (clearState s).board a b v) y x = v := by
    intro a b
    rw [bget_bset]
    split
    · exact Or.inr rfl
    · exact Or.inl h0
  unfold draw_position
  rw [if_neg h]
  split
  · exact Or.inl h0
  · split
    · exact hset _ _
    · split
      · exact hset _ _
      · exact hset _ _

/-! ## Claim C1 -/

/-- Claim C1, counterexample: at the out-of-bounds pixel `(-1, 0)` with a
path drawn, `erase` does return the rejection code 1, but the grid is NOT
left unchanged: the PATH cell is cleared and `path_drawn` is reset, because
`erase` runs `remove_paths` before its bounds check. -/
theorem c1_counterexample :
    outOfBounds pathState ((-1 : Int), 0) ∧
    (erase pathState ((-1 : Int), 0)).1 = 1 ∧
    (erase pathState ((-1 : Int), 0)).2.board ≠ pathState.board ∧
    (erase pathState ((-1 : Int), 0)).2.path_drawn ≠ pathState.path_drawn := by
  decide

/-- Claim C1 (amended): an out-of-bounds `draw_position` returns 1 and leaves
the whole state unchanged; an out-of-bounds `erase` returns 1 and leaves the
cached start/end and every non-PATH cell unchanged, but it first clears any
drawn PATH cells and resets `path_drawn` (its path clearing precedes its
bounds check). -/
theorem c1_oob_rejection (s : Board) (p : Int × Int) (v : Nat)
    (h : outOfBounds s p) :
    draw_position s p v = (1, s) ∧
    (erase s p).1 = 1 ∧
    (erase s p).2.start = s.start ∧
    (erase s p).2.end' = s.end' ∧
    (erase s p).2.path_drawn = false ∧
    (∀ y x : Nat, bget (erase s p).2.board y x =
        if s.path_drawn = true ∧ bget s.board y x = 4 then 0
        else bget s.board y x) := by
  rw [erase_oob s p h]
  refine ⟨draw_position_oob s p v h, rfl, clearState_start s, clearState_end s,
    clearState_path_drawn s, ?_⟩
  intro y x
  exact bget_clearState s y x

/-- Witness for `c1_oob_rejection` at the concrete state `pathState` and the
out-of-bounds pixel `(-1, 0)`. -/
theorem c1_oob_rejection_witness :
    outOfBounds pathState ((-1 : Int), 0) ∧
    draw_position pathState ((-1 : Int), 0) 1 = (1, pathState) :=
  ⟨by decide, (c1_oob_rejection pathState ((-1 : Int), 0) 1 (by decide)).1⟩

/-! ## Claim C3 -/

/-- Claim C3, counterexample: an out-of-bounds `draw_position` call does not
clear the drawn path: the PATH cell at `(2,1)` survives and `path_drawn`
stays true, because the bounds check precedes the path clearing. -/
theorem c3_counterexample :
    outOfBounds pathState ((-1 : Int), 0) ∧
    (draw_position pathState ((-1 : Int), 0) 1).2.path_drawn = true ∧
    bget (draw_position pathState ((-1 : Int), 0) 1).2.board 2 1 = 4 := by
  decide

/-- Claim C3 (amended): every `erase` call, and every `draw_position` call
whose position is in bounds, first clears all pre-existing PATH cells (they
end up OFF, or painted to the requested value if the paint targets one) and
leaves `path_drawn` false; an out-of-bounds `draw_position` returns before
the clearing step. -/
theorem c3_paint_erase_clear_path (s : Board) (p q : Int × Int) (v : Nat)
    (hq : inBounds s q) :
    (erase s p).2.path_drawn = false ∧
    (∀ y x : Nat, s.path_drawn = true → bget s.board y x = 4 →
        bget (erase s p).2.board y x = 0) ∧
    (draw_position s q v).2.path_drawn = false ∧
    (∀ y x : Nat, s.path_drawn = true → bget s.board y x = 4 →
        bget (draw_position s q v).2.board y x = 0 ∨
        bget (draw_position s q v).2.board y x = v) :=
  ⟨erase_path_drawn s p,
   fun y x hp h4 => erase_clears s p y x hp h4,
   draw_position_path_drawn s q v hq,
   fun y x hp h4 => draw_position_clears s q v y x hq hp h4⟩

/-- Witness for `c3_paint_erase_clear_path` at `pathState`, erasing at pixel
`(0, 0)` and painting at pixel `(40, 0)` (cell `(0, 2)`). -/
theorem c3_paint_erase_clear_path_witness :
    inBounds pathState ((40 : Int), 0) ∧
    (erase pathState ((0 : Int), 0)).2.path_drawn = false ∧
    bget (erase pathState ((0 : Int), 0)).2.board 2 1 = 0 :=
  ⟨by decide,
   (c3_paint_erase_clear_path pathState ((0 : Int), 0) ((40 : Int), 0) 1
      (by decide)).1,
   (c3_paint_erase_clear_path pathState ((0 : Int), 0) ((40 : Int), 0) 1
      (by decide)).2.1 2 1 (by decide) (by decide)⟩

/-! ## Claim C7 -/

/-- Claim C7, counterexample: at the in-bounds pixel `(20, 40)` (cell
`(2, 1)`, which holds PATH while `path_drawn` is set), `draw_position` is NOT
rejected: it returns 0 and overwrites the cell with the painted value 1,
because the path-invalidation step clears the cell before the occupancy
check. -/
theorem c7_counterexample :
    inBounds pathState ((20 : Int), 40) ∧
    bgetZ pathState.board (pxToCell ((20 : Int), 40)) = 4 ∧
    (draw_position pathState ((20 : Int), 40) 1).1 = 0 ∧
    bgetZ (draw_position pathState ((20 : Int), 40) 1).2.board
      (pxToCell ((20 : Int), 40)) = 1 := by
  decide

/-- Claim C7 (amended): an in-bounds `draw_position` onto a cell holding a
non-Empty value `c` is rejected with the cell unchanged, provided the cell is
not a PATH cell of a currently drawn path (`c = 4 → path_drawn = false`); a
PATH cell of a drawn path is instead cleared by path invalidation first and
can then be painted. -/
theorem c7_paint_occupied_rejected (s : Board) (p : Int × Int) (v c : Nat)
    (hin : inBounds s p) (hc : bgetZ s.board (pxToCell p) = c) (hc0 : c ≠ 0)
    (hcp : c = 4 → s.path_drawn = false) :
    (draw_position s p v).1 = 1 ∧
    bgetZ (draw_position s p v).2.board (pxToCell p) = c := by
  have hcell : bgetZ (clearState s).board (pxToCell p) = c := by
    unfold bgetZ at hc ⊢
    rw [bget_clearState]
    split
    · next hh =>
      exact absurd (hcp (hc ▸ hh.2)) (by simp [hh.1])
    · exact hc
  unfold draw_position
  rw [if_neg hin, if_pos (show ¬ _ = 0 by
    unfold bgetZ pxToCell at hcell
    simp only [PIXELS_PER_UNIT] at hcell ⊢
    rw [hcell]
    exact hc0)]
  exact ⟨rfl, hcell⟩

/-- Witness for `c7_paint_occupied_rejected`: painting onto the wall cell
`(0, 1)` of `pathState` (pixel `(20, 0)`) is rejected and the cell keeps
value 1. -/
theorem c7_paint_occupied_rejected_witness :
    inBounds pathState ((20 : Int), 0) ∧
    (draw_position pathState ((20 : Int), 0) 2).1 = 1 ∧
    bgetZ (draw_position pathState ((20 : Int), 0) 2).2.board
      (pxToCell ((20 : Int), 0)) = 1 := by
  refine ⟨by decide, ?_, ?_⟩
  · exact (c7_paint_occupied_rejected pathState ((20 : Int), 0) 2 1 (by decide)
      (by decide) (by decide) (by decide)).1
  · exact (c7_paint_occupied_rejected pathState ((20 : Int), 0) 2 1 (by decide)
      (by decide) (by decide) (by decide)).2

/-! ## Claim C9 -/

/-- Claim C9: erasing the cell holding Start (resp. End) clears the cached
start (resp. end) reference, and a `run_pathfinding` call on any state whose
start is unset returns the missing-endpoint failure immediately with the
state unchanged. -/
theorem c9_erase_endpoint_then_run (s : Board) (p : Int × Int)
    (hin : inBounds s p) :
    (bgetZ s.board (pxToCell p) = 2 → (erase s p).2.start = none) ∧
    (bgetZ s.board (pxToCell p) = 3 → (erase s p).2.end' = none) ∧
    (∀ (t : Board) (f : Nat), t.start = none →
      run_pathfinding f t = (.missing, t)) := by
  refine ⟨?_, ?_, ?_⟩
  · intro h2
    have hcell : bget (clearState s).board (p.2.fdiv PIXELS_PER_UNIT).toNat
        (p.1.fdiv PIXELS_PER_UNIT).toNat = 2 := by
      rw [bget_clearState]
      split
      · next hh =>
        unfold bgetZ pxToCell at h2
        rw [h2] at hh
        exact absurd hh.2 (by decide)
      · unfold bgetZ pxToCell at h2
        exact h2
    unfold erase
    rw [if_neg hin, if_pos hcell]
  · intro h3
    have hcell : bget (clearState s).board (p.2.fdiv PIXELS_PER_UNIT).toNat
        (p.1.fdiv PIXELS_PER_UNIT).toNat = 3 := by
      rw [bget_clearState]
      split
      · next hh =>
        unfold bgetZ pxToCell at h3
        rw [h3] at hh
        exact absurd hh.2 (by decide)
      · unfold bgetZ pxToCell at h3
        exact h3
    unfold erase
    rw [if_neg hin, if_neg (by rw [hcell]; decide), if_pos hcell]
  · intro t f ht
    unfold run_pathfinding
    rw [ht]

/-- Witness for `c9_erase_endpoint_then_run`: erasing the start cell of
`pathState` (pixel `(0, 0)`) drops the cached start, and the subsequent run
on the erased state reports the missing endpoint with no mutation. -/
theorem c9_erase_endpoint_then_run_witness :
    inBounds pathState ((0 : Int), 0) ∧
    (erase pathState ((0 : Int), 0)).2.start = none ∧
    run_pathfinding 50 (erase pathState ((0 : Int), 0)).2 =
      (.missing, (erase pathState ((0 : Int), 0)).2) := by
  have h := c9_erase_endpoint_then_run pathState ((0 : Int), 0) (by decide)
  have hs : (erase pathState ((0 : Int), 0)).2.start = none := h.1 (by decide)
  exact ⟨by decide, hs, h.2.2 _ 50 hs⟩

/-! ## Lemmas about the search loop -/

theorem loop_nil (w h : Nat) (e : Int × Int) (d : Bool) (f : Nat)
    (closed : List Cell) (b : Brd) :
    loop w h e d f [] closed b = (.exhausted, b) := by
  cases f <;> rfl

theorem loop_exhausted (w h : Nat) (e : Int × Int) (d : Bool) :
    ∀ (f : Nat) (opn closed : List Cell) (b b' : Brd),
      loop w h e d f opn closed b = (.exhausted, b') → b' = b := by
  intro f
  induction f with
  | zero =>
    intro opn closed b b' hl
    cases opn with
    | nil =>
      injection hl with h1 h2
      exact h2.symm
    | cons c cs =>
      injection hl with h1 h2
      exact absurd h1 (by decide)
  | succ f ih =>
    intro opn closed b b' hl
    cases opn with
    | nil =>
      injection hl with h1 h2
      exact h2.symm
    | cons c cs =>
      unfold loop at hl
      split at hl
      · injection hl with h1 h2
        exact absurd h1 (by decide)
      · exact ih _ _ _ _ hl

/-! ## Claim C2 -/

/-- Claim C2, counterexample: `c2state` is reached from a fresh 3×3 board by
driver actions, has start and end set, and its run exhausts the frontier; the
call nevertheless mutates the grid, clearing the PATH cell left by the
earlier (diagonal) run and resetting `path_drawn`. -/
theorem c2_counterexample :
    c2state.start ≠ none ∧ c2state.end' ≠ none ∧
    (run_pathfinding 50 c2state).1 = .exhausted ∧
    (run_pathfinding 50 c2state).2.board ≠ c2state.board ∧
    (run_pathfinding 50 c2state).2.path_drawn ≠ c2state.path_drawn := by
  decide

/-- Claim C2 (amended): a run that exhausts the frontier reports the
no-path-exists outcome (Python's fall-through `None` return, distinct from
the success code 0 and the missing-endpoint code 1) and performs no grid
mutation beyond the initial path-invalidation step: start, end and every
non-PATH cell are unchanged, PATH cells are cleared exactly when a path was
drawn, and `path_drawn` ends false; in particular when no path was drawn at
entry the state is entirely unchanged. -/
theorem c2_exhaustion_no_mutation (f : Nat) (s s' : Board)
    (h : run_pathfinding f s = (.exhausted, s')) :
    s'.start = s.start ∧ s'.end' = s.end' ∧
    s'.placing_start = s.placing_start ∧ s'.placing_end = s.placing_end ∧
    s'.diagonal = s.diagonal ∧ s'.path_drawn = false ∧
    (∀ y x : Nat, bget s'.board y x =
        if s.path_drawn = true ∧ bget s.board y x = 4 then 0
        else bget s.board y x) ∧
    (s.path_drawn = false → s' = s) := by
  unfold run_pathfinding at h
  split at h
  · next st en hst hen =>
    rcases hr : loop s.width s.height en s.diagonal f [mkCell st en none] []
        (if s.path_drawn then clearPaths s.board else s.board) with ⟨out, b2⟩
    rw [hr] at h
    cases out with
    | success =>
      injection h with h1 h2
      exact absurd h1 (by decide)
    | missing =>
      injection h with h1 h2
      exact absurd h1 (by decide)
    | fuelOut =>
      injection h with h1 h2
      exact absurd h1 (by decide)
    | exhausted =>
      injection h with h1 h2
      have hb2 : b2 = (if s.path_drawn then clearPaths s.board else s.board) :=
        loop_exhausted _ _ _ _ _ _ _ _ _ hr
      have hs' : s' = { s with board := b2, path_drawn := false } := h2.symm
      subst hs'
      refine ⟨rfl, rfl, rfl, rfl, rfl, rfl, ?_, ?_⟩
      · intro y x
        rw [hb2]
        by_cases hp : s.path_drawn = true
        · rw [if_pos hp, bget_clearPaths]
          by_cases h4 : bget s.board y x = 4
          · rw [if_pos h4, if_pos ⟨hp, h4⟩]
          · rw [if_neg h4, if_neg (by simp [h4])]
        · rw [if_neg (by simpa using hp), if_neg (by simp [hp])]
      · intro hp
        rw [hb2, if_neg (by simp [hp])]
        cases s
        simp_all
  · injection h with h1 h2
    exact absurd h1 (by decide)

/-- Witness for `c2_exhaustion_no_mutation` at the reachable state
`c2state`. -/
theorem c2_exhaustion_no_mutation_witness :
    run_pathfinding 50 c2state =
      (.exhausted, (run_pathfinding 50 c2state).2) ∧
    (run_pathfinding 50 c2state).2.start = c2state.start :=
  ⟨by decide,
   (c2_exhaustion_no_mutation 50 c2state (run_pathfinding 50 c2state).2
      (by decide)).1⟩

/-! ## Claim C5 -/

/-- Claim C5: a freshly generated candidate is not added to the frontier
exactly when some closed cell shares its position or some open cell shares
its position with `total_estimate` no greater than the candidate's; when the
closed list is position-free and every same-position open entry is strictly
worse, the candidate is appended at the end and the old entries all remain. -/
theorem c5_frontier_insertion (opn closed : List Cell) (child : Cell) :
    (addChild opn closed child = opn ↔
      (∃ m ∈ closed, m.position = child.position) ∨
      (∃ o ∈ opn, o.position = child.position ∧ o.totalLe child = true)) ∧
    ((∀ m ∈ closed, m.position ≠ child.position) →
     (∀ o ∈ opn, o.position = child.position → o.totalLe child = false) →
     addChild opn closed child = opn ++ [child]) := by
  have happ : opn ++ [child] ≠ opn := by
    intro hcontra
    have := congrArg List.length hcontra
    simp at this
  constructor
  · unfold addChild inClosed blockedByOpen
    constructor
    · intro he
      by_cases h1 : ∃ m ∈ closed, m.position = child.position
      · exact Or.inl h1
      · by_cases h2 : ∃ o ∈ opn, o.position = child.position ∧
            o.totalLe child = true
        · exact Or.inr h2
        · rw [if_neg (by simpa [List.any_eq_true] using h1),
            if_neg (by simpa [List.any_eq_true] using h2)] at he
          exact absurd he happ
    · intro hd
      rcases hd with h1 | h2
      · rw [if_pos (by simpa [List.any_eq_true] using h1)]
      · by_cases h1 : closed.any (fun m => m.position = child.position) = true
        · rw [if_pos h1]
        · rw [if_neg h1, if_pos (by simpa [List.any_eq_true] using h2)]
  · intro h1 h2
    unfold addChild inClosed blockedByOpen
    rw [if_neg, if_neg]
    · simp only [List.any_eq_true, Bool.and_eq_true, decide_eq_true_eq, not_exists]
      rintro o ⟨ho, hpos, hle⟩
      rw [h2 o ho hpos] at hle
      exact absurd hle (by decide)
    · simp only [List.any_eq_true, decide_eq_true_eq, not_exists]
      rintro m ⟨hm, hpos⟩
      exact h1 m hm hpos

/-- Witness for `c5_frontier_insertion`: with empty closed and open lists the
candidate is appended. -/
theorem c5_frontier_insertion_witness :
    addChild [] [] probeCell = [] ++ [probeCell] :=
  (c5_frontier_insertion [] [] probeCell).2 (by simp) (by simp)

/-! ## Claim C8 -/

/-- Claim C8: on the 5×5 board of the spec's example (start `(0,0)`, end
`(4,4)`, diagonal movement on), the run succeeds and exactly the interior
diagonal cells `(1,1)`, `(2,2)`, `(3,3)` hold PATH afterwards, while `(0,0)`
still holds Start and `(4,4)` still holds End. -/
theorem c8_diagonal_example :
    run_pathfinding 100 c8state = (.success, c8out) ∧
    (∀ y : Nat, y < 5 → ∀ x : Nat, x < 5 →
      (bget c8out.board y x = 4 ↔
        ((y, x) = (1, 1) ∨ (y, x) = (2, 2) ∨ (y, x) = (3, 3)))) ∧
    bget c8out.board 0 0 = 2 ∧ bget c8out.board 4 4 = 3 := by
  decide

/-! ## Claim C10 -/

/-- Claim C10, counterexample: the states `c10a` and `c10b` agree on the cell
array, start, end, dimensions and diagonal mode (differing only in
`path_drawn`), yet running each produces different final board cells: the
stray PATH cell is cleared in one run and kept in the other.  Identity of the
listed fields alone therefore does not determine the outcome. -/
theorem c10_counterexample :
    c10a.board = c10b.board ∧ c10a.start = c10b.start ∧
    c10a.end' = c10b.end' ∧ c10a.diagonal = c10b.diagonal ∧
    c10a.width = c10b.width ∧ c10a.height = c10b.height ∧
    (run_pathfinding 10 c10a).1 = (run_pathfinding 10 c10b).1 ∧
    (run_pathfinding 10 c10a).2.board ≠ (run_pathfinding 10 c10b).2.board := by
  decide

/-- Claim C10 (amended): `run_pathfinding` is deterministic, and its outcome
and final cells depend only on the cell array, dimensions, start, end,
diagonal mode and the `path_drawn` flag — the placing flags are irrelevant.
Two invocations from states agreeing on those fields return the same result
and the same final board cells. -/
theorem c10_run_deterministic (s₁ s₂ : Board) (f : Nat)
    (hw : s₁.width = s₂.width) (hh : s₁.height = s₂.height)
    (hb : s₁.board = s₂.board) (hs : s₁.start = s₂.start)
    (he : s₁.end' = s₂.end') (hd : s₁.diagonal = s₂.diagonal)
    (hp : s₁.path_drawn = s₂.path_drawn) :
    (run_pathfinding f s₁).1 = (run_pathfinding f s₂).1 ∧
    (run_pathfinding f s₁).2.board = (run_pathfinding f s₂).2.board := by
  unfold run_pathfinding
  rw [hw, hh, hs, he, hd, hp, hb]
  split
  · split <;> exact ⟨rfl, rfl⟩
  · exact ⟨rfl, hb⟩

/-- Witness for `c10_run_deterministic`: two states that differ only in the
placing flags produce identical run results. -/
theorem c10_run_deterministic_witness :
    (run_pathfinding 10 c10a).1 =
      (run_pathfinding 10 { c10a with placing_start := true }).1 ∧
    (run_pathfinding 10 c10a).2.board =
      (run_pathfinding 10 { c10a with placing_start := true }).2.board :=
  c10_run_deterministic c10a { c10a with placing_start := true } 10
    rfl rfl rfl rfl rfl rfl rfl

/-! ## Pointwise characterisation of the backtrace marking -/

theorem bgetZ_bsetZ (b : Brd) (p q : Int × Int) (v : Nat)
    (hp1 : 0 ≤ p.1) (hp2 : 0 ≤ p.2) (hq1 : 0 ≤ q.1) (hq2 : 0 ≤ q.2) :
    bgetZ (bsetZ b p v) q =
      if q = p ∧ p.1.toNat < b.length ∧ p.2.toNat < (b.getD p.1.toNat []).length
      then v else bgetZ b q := by
  unfold bgetZ bsetZ
  rw [bget_bset]
  by_cases hqp : q = p
  · subst hqp
    by_cases hr : q.1.toNat < b.length ∧ q.2.toNat < (b.getD q.1.toNat []).length
    · rw [if_pos ⟨rfl, rfl, hr.1, hr.2⟩, if_pos ⟨rfl, hr⟩]
    · rw [if_neg (fun hc => hr ⟨hc.2.2.1, hc.2.2.2⟩),
        if_neg (fun hc => hr hc.2)]
  · rw [if_neg, if_neg (fun hc => hqp hc.1)]
    rintro ⟨h1, h2, _⟩
    refine hqp (Prod.ext_iff.2 ⟨?_, ?_⟩)
    · rw [← Int.toNat_of_nonneg hq1, ← Int.toNat_of_nonneg hp1, h1]
    · rw [← Int.toNat_of_nonneg hq2, ← Int.toNat_of_nonneg hp2, h2]

theorem length_markPath : ∀ (l : List (Int × Int)) (b : Brd),
    (markPath b l).length = b.length := by
  intro l
  induction l with
  | nil => intro b; rfl
  | cons p ps ih =>
    intro b
    unfold markPath
    rw [ih]
    split
    · exact length_bset _ _ _ _
    · rfl

theorem getD_markPath_length : ∀ (l : List (Int × Int)) (b : Brd) (i : Nat),
    ((markPath b l).getD i []).length = (b.getD i []).length := by
  intro l
  induction l with
  | nil => intro b i; rfl
  | cons p ps ih =>
    intro b i
    unfold markPath
    rw [ih]
    split
    · exact getD_bset_length _ _ _ _ _
    · rfl

theorem bgetZ_markPath : ∀ (l : List (Int × Int)) (b : Brd),
    (∀ r ∈ l, inArray b r) → ∀ q : Int × Int, 0 ≤ q.1 → 0 ≤ q.2 →
    bgetZ (markPath b l) q =
      if q ∈ l ∧ bgetZ b q = 0 then 4 else bgetZ b q := by
  intro l
  induction l with
  | nil =>
    intro b hl q hq1 hq2
    rw [if_neg (fun hc => List.not_mem_nil q hc.1)]
    rfl
  | cons p ps ih =>
    intro b hl q hq1 hq2
    have hpIn : inArray b p := hl p (List.mem_cons_self p ps)
    unfold markPath
    by_cases h0 : bgetZ b p = 0
    · rw [if_pos h0]
      have hlen : (bsetZ b p 4).length = b.length := length_bset _ _ _ _
      have hrow : ∀ i, ((bsetZ b p 4).getD i []).length = (b.getD i []).length :=
        fun i => getD_bset_length _ _ _ _ _
      have hl' : ∀ r ∈ ps, inArray (bsetZ b p 4) r := by
        intro r hr
        have := hl r (List.mem_cons_of_mem p hr)
        exact ⟨this.1, this.2.1, by rw [hlen]; exact this.2.2.1,
          by rw [hrow]; exact this.2.2.2⟩
      rw [ih (bsetZ b p 4) hl' q hq1 hq2]
      have hset : bgetZ (bsetZ b p 4) q =
          if q = p then 4 else bgetZ b q := by
        rw [bgetZ_bsetZ b p q 4 hpIn.1 hpIn.2.1 hq1 hq2]
        by_cases hqp : q = p
        · rw [if_pos ⟨hqp, hpIn.2.2.1, hpIn.2.2.2⟩, if_pos hqp]
        · rw [if_neg (fun hc => hqp hc.1), if_neg hqp]
      by_cases hqp : q = p
      · subst hqp
        rw [hset, if_pos rfl] at *
        rw [if_neg (fun hc => by
          have : (4 : Nat) = 0 := hc.2
          exact absurd this (by decide)),
          if_pos ⟨List.mem_cons_self q ps, h0⟩]
      · rw [hset, if_neg hqp]
        by_cases hmem : q ∈ ps ∧ bgetZ b q = 0
        · rw [if_pos hmem, if_pos ⟨List.mem_cons_of_mem p hmem.1, hmem.2⟩]
        · rw [if_neg hmem, if_neg (fun hc => hmem ⟨?_, hc.2⟩)]
          rcases List.mem_cons.1 hc.1 with h | h
          · exact absurd h hqp
          · exact h
    · rw [if_neg h0, ih b (fun r hr => hl r (List.mem_cons_of_mem p hr)) q hq1 hq2]
      by_cases hmem : q ∈ ps ∧ bgetZ b q = 0
      · rw [if_pos hmem, if_pos ⟨List.mem_cons_of_mem p hmem.1, hmem.2⟩]
      · rw [if_neg hmem, if_neg (fun hc => ?_)]
        rcases List.mem_cons.1 hc.1 with h | h
        · exact h0 (h ▸ hc.2)
        · exact hmem ⟨h, hc.2⟩

/-! ## Claim C6 -/

/-- Claim C6: when the cell selected from the frontier sits on the goal
position, the loop returns success with the board marked along the selected
cell's parent chain; the marking sets exactly the chain positions whose cell
is currently OFF to PATH (START/END/ON cells are never relabelled), and a
successful `run_pathfinding` sets `path_drawn`. -/
theorem c6_success_backtrace (w h : Nat) (endP : Int × Int) (diag : Bool)
    (f : Nat) (c : Cell) (cs closed : List Cell) (b : Brd)
    (hend : (selectMin c cs).position = endP)
    (hl : ∀ q ∈ (selectMin c cs).chain, inArray b q) :
    loop w h endP diag (f + 1) (c :: cs) closed b =
      (.success, markPath b (selectMin c cs).chain) ∧
    (∀ q : Int × Int, 0 ≤ q.1 → 0 ≤ q.2 →
      bgetZ (markPath b (selectMin c cs).chain) q =
        if q ∈ (selectMin c cs).chain ∧ bgetZ b q = 0 then 4
        else bgetZ b q) ∧
    (∀ (t t' : Board) (fu : Nat),
      run_pathfinding fu t = (.success, t') → t'.path_drawn = true) := by
  refine ⟨?_, fun q hq1 hq2 => bgetZ_markPath _ b hl q hq1 hq2, ?_⟩
  · unfold loop
    rw [if_pos hend]
  · intro t t' fu hrun
    unfold run_pathfinding at hrun
    split at hrun
    · next st en hst hen =>
      rcases hr : loop t.width t.height en t.diagonal fu [mkCell st en none] []
          (if t.path_drawn then clearPaths t.board else t.board) with ⟨out, b2⟩
      rw [hr] at hrun
      cases out with
      | success =>
        injection hrun with h1 h2
        rw [← h2]
      | missing =>
        injection hrun with h1 h2
        exact absurd h1 (by decide)
      | exhausted =>
        injection hrun with h1 h2
        exact absurd h1 (by decide)
      | fuelOut =>
        injection hrun with h1 h2
        exact absurd h1 (by decide)
    · injection hrun with h1 h2
      exact absurd h1 (by decide)

/-- Witness for `c6_success_backtrace` on a 1×1 board whose only cell is the
goal. -/
theorem c6_success_backtrace_witness :
    loop 1 1 (0, 0) true 1 [probeCell] [] [[0]] =
      (.success, markPath [[0]] (selectMin probeCell []).chain) :=
  (c6_success_backtrace 1 1 (0, 0) true 0 probeCell [] [] [[0]]
    (by decide) (by decide)).1

/-! ## Preservation of START/END cells by the individual operations -/

theorem bget_iff_clearPaths (b : Brd) (y x v : Nat) (hv0 : v ≠ 0) (hv4 : v ≠ 4) :
    bget (clearPaths b) y x = v ↔ bget b y x = v := by
  rw [bget_clearPaths]
  split
  · next hc =>
    constructor
    · intro h0
      exact absurd h0.symm hv0
    · intro hb
      exact absurd (hc ▸ hb : (4 : Nat) = v) (fun hh => hv4 hh.symm)
  · exact Iff.rfl

theorem bget_iff_clearState (s : Board) (y x v : Nat) (hv0 : v ≠ 0) (hv4 : v ≠ 4) :
    bget (clearState s).board y x = v ↔ bget s.board y x = v := by
  unfold clearState
  split
  · exact bget_iff_clearPaths s.board y x v hv0 hv4
  · exact Iff.rfl

theorem bget_iff_bset (b : Brd) (y x w' v : Nat) (hnew : w' ≠ v)
    (hold : bget b y x ≠ v) (y' x' : Nat) :
    bget (bset b y x w') y' x' = v ↔ bget b y' x' = v := by
  rw [bget_bset]
  split
  · next hc =>
    constructor
    · intro hw
      exact absurd hw hnew
    · intro hb
      rw [hc.1, hc.2.1] at hb
      exact absurd hb hold
  · exact Iff.rfl

theorem inv_mk (w h : Nat) : Inv (mkBoard w h) := by
  refine ⟨List.length_replicate h _, ?_, ?_, ?_, ?_, ?_⟩
  · intro i hi
    show (List.getD (List.replicate h (List.replicate w 0)) i []).length = w
    rw [getD_replicate_row, if_pos (show i < h from hi), List.length_replicate]
  · intro hc
    exact Bool.noConfusion hc
  · intro hc
    exact Bool.noConfusion hc
  · intro y x
    show bget (List.replicate h (List.replicate w 0)) y x = 2 ↔
      (none : Option (Int × Int)) = some ((y : Int), (x : Int))
    rw [bget_replicate]
    simp
  · intro y x
    show bget (List.replicate h (List.replicate w 0)) y x = 3 ↔
      (none : Option (Int × Int)) = some ((y : Int), (x : Int))
    rw [bget_replicate]
    simp

theorem inv_clearState (s : Board) (h : Inv s) : Inv (clearState s) := by
  refine ⟨?_, ?_, ?_, ?_, ?_, ?_⟩
  · rw [length_clearState, clearState_height]
    exact h.rows
  · intro i hi
    rw [getD_clearState_length, clearState_width]
    exact h.cols i (by rwa [clearState_height] at hi)
  · rw [clearState_placing_start, clearState_start]
    exact h.psOK
  · rw [clearState_placing_end, clearState_end]
    exact h.peOK
  · intro y x
    rw [clearState_start]
    exact (bget_iff_clearState s y x 2 (by decide) (by decide)).trans (h.startOK y x)
  · intro y x
    rw [clearState_end]
    exact (bget_iff_clearState s y x 3 (by decide) (by decide)).trans (h.endOK y x)

theorem inv_flags_off (s : Board) (h : Inv s) :
    Inv { s with placing_start := false, placing_end := false } := by
  refine ⟨h.rows, h.cols, ?_, ?_, h.startOK, h.endOK⟩
  · intro hc
    exact absurd hc (by simp)
  · intro hc
    exact absurd hc (by simp)

theorem inv_place_start (s : Board) (h : Inv s) : Inv (place_start s) := by
  unfold place_start
  split
  · exact h
  · next hne =>
    refine ⟨h.rows, h.cols, ?_, ?_, h.startOK, h.endOK⟩
    · intro _
      exact not_not.mp hne
    · intro hc
      exact absurd hc (by simp)

theorem inv_place_end (s : Board) (h : Inv s) : Inv (place_end s) := by
  unfold place_end
  split
  · exact h
  · next hne =>
    refine ⟨h.rows, h.cols, ?_, ?_, h.startOK, h.endOK⟩
    · intro hc
      exact absurd hc (by simp)
    · intro _
      exact not_not.mp hne

theorem inv_toggle (s : Board) (h : Inv s) : Inv (toggle_diagonal_movement s) :=
  ⟨h.rows, h.cols, h.psOK, h.peOK, h.startOK, h.endOK⟩

theorem inv_reset (s : Board) (_h : Inv s) : Inv (reset_board s) := by
  refine ⟨List.length_replicate s.height _, ?_, ?_, ?_, ?_, ?_⟩
  · intro i hi
    show (List.getD (List.replicate s.height (List.replicate s.width 0)) i []).length = s.width
    rw [getD_replicate_row, if_pos (show i < s.height from hi),
      List.length_replicate]
  · intro hc
    exact Bool.noConfusion hc
  · intro hc
    exact Bool.noConfusion hc
  · intro y x
    show bget (List.replicate s.height (List.replicate s.width 0)) y x = 2 ↔
      (none : Option (Int × Int)) = some ((y : Int), (x : Int))
    rw [bget_replicate]
    simp
  · intro y x
    show bget (List.replicate s.height (List.replicate s.width 0)) y x = 3 ↔
      (none : Option (Int × Int)) = some ((y : Int), (x : Int))
    rw [bget_replicate]
    simp

theorem bget_iff_markPath : ∀ (l : List (Int × Int)) (b : Brd) (y x v : Nat),
    v ≠ 0 → v ≠ 4 → (bget (markPath b l) y x = v ↔ bget b y x = v) := by
  intro l
  induction l with
  | nil =>
    intro b y x v _ _
    exact Iff.rfl
  | cons p ps ih =>
    intro b y x v hv0 hv4
    unfold markPath
    rw [ih _ y x v hv0 hv4]
    split
    · next h0 =>
      exact bget_iff_bset b p.1.toNat p.2.toNat 4 v (fun hc => hv4 hc.symm)
        (fun hc => hv0 (hc.symm.trans h0)) y x
    · exact Iff.rfl

theorem loop_board (w h : Nat) (e : Int × Int) (d : Bool) :
    ∀ (f : Nat) (opn closed : List Cell) (b : Brd),
      (loop w h e d f opn closed b).2.length = b.length ∧
      (∀ i : Nat, ((loop w h e d f opn closed b).2.getD i []).length =
        (b.getD i []).length) ∧
      (∀ y x v : Nat, v ≠ 0 → v ≠ 4 →
        (bget (loop w h e d f opn closed b).2 y x = v ↔ bget b y x = v)) := by
  intro f
  induction f with
  | zero =>
    intro opn closed b
    cases opn with
    | nil => exact ⟨rfl, fun i => rfl, fun y x v _ _ => Iff.rfl⟩
    | cons c cs => exact ⟨rfl, fun i => rfl, fun y x v _ _ => Iff.rfl⟩
  | succ f ih =>
    intro opn closed b
    cases opn with
    | nil => exact ⟨rfl, fun i => rfl, fun y x v _ _ => Iff.rfl⟩
    | cons c cs =>
      unfold loop
      split
      · exact ⟨length_markPath _ _, fun i => getD_markPath_length _ _ i,
          fun y x v hv0 hv4 => bget_iff_markPath _ _ y x v hv0 hv4⟩
      · exact ih _ _ _

theorem inv_run (f : Nat) (s : Board) (h : Inv s) :
    Inv (run_pathfinding f s).2 := by
  unfold run_pathfinding
  split
  · next st en hst hen =>
    rcases hr : loop s.width s.height en s.diagonal f [mkCell st en none] []
        (if s.path_drawn then clearPaths s.board else s.board) with ⟨out, b2⟩
    have hb := loop_board s.width s.height en s.diagonal f [mkCell st en none] []
        (if s.path_drawn then clearPaths s.board else s.board)
    rw [hr] at hb
    have hb1len : (if s.path_drawn then clearPaths s.board else s.board).length =
        s.board.length := by
      split
      · exact length_clearPaths _
      · rfl
    have hb1row : ∀ i : Nat,
        ((if s.path_drawn then clearPaths s.board else s.board).getD i []).length =
        (s.board.getD i []).length := by
      intro i
      split
      · exact getD_clearPaths_length _ _
      · rfl
    have hb1iff : ∀ y x v : Nat, v ≠ 0 → v ≠ 4 →
        (bget (if s.path_drawn then clearPaths s.board else s.board) y x = v ↔
          bget s.board y x = v) := by
      intro y x v hv0 hv4
      split
      · exact bget_iff_clearPaths s.board y x v hv0 hv4
      · exact Iff.rfl
    have hbuild : ∀ pd : Bool, Inv { s with board := b2, path_drawn := pd } := by
      intro pd
      refine ⟨?_, ?_, h.psOK, h.peOK, ?_, ?_⟩
      · show b2.length = s.height
        rw [hb.1, hb1len]
        exact h.rows
      · intro i hi
        show (b2.getD i []).length = s.width
        rw [hb.2.1 i, hb1row i]
        exact h.cols i hi
      · intro y x
        show bget b2 y x = 2 ↔ s.start = some ((y : Int), (x : Int))
        rw [hb.2.2 y x 2 (by decide) (by decide), hb1iff y x 2 (by decide) (by decide)]
        exact h.startOK y x
      · intro y x
        show bget b2 y x = 3 ↔ s.end' = some ((y : Int), (x : Int))
        rw [hb.2.2 y x 3 (by decide) (by decide), hb1iff y x 3 (by decide) (by decide)]
        exact h.endOK y x
    cases out
    · exact hbuild true
    · exact hbuild false
    · exact hbuild false
    · exact hbuild false
  · exact h

theorem inv_erase (s : Board) (p : Int × Int) (h : Inv s) : Inv (erase s p).2 := by
  have h1 : Inv (clearState s) := inv_clearState s h
  unfold erase
  split
  · exact h1
  · next hbnd =>
    push_neg at hbnd
    obtain ⟨hx0, hxw, hy0, hyh⟩ := hbnd
    have hrows : (clearState s).board.length = s.height := by
      have := h1.rows
      rwa [clearState_height] at this
    have hyt : (p.2.fdiv PIXELS_PER_UNIT).toNat < (clearState s).board.length := by
      rw [hrows]
      omega
    have hxt : (p.1.fdiv PIXELS_PER_UNIT).toNat <
        ((clearState s).board.getD (p.2.fdiv PIXELS_PER_UNIT).toNat []).length := by
      have hc := h1.cols (p.2.fdiv PIXELS_PER_UNIT).toNat
        (by rw [clearState_height]; omega)
      rw [clearState_width] at hc
      rw [hc]
      omega
    split
    · next hc2 =>
      have hstart : (clearState s).start =
          some (((p.2.fdiv PIXELS_PER_UNIT).toNat : Int),
                ((p.1.fdiv PIXELS_PER_UNIT).toNat : Int)) :=
        (h1.startOK _ _).mp hc2
      refine ⟨?_, ?_, ?_, ?_, ?_, ?_⟩
      · show (bset (clearState s).board _ _ 0).length = (clearState s).height
        rw [length_bset]
        exact h1.rows
      · intro i hi
        show ((bset (clearState s).board _ _ 0).getD i []).length =
          (clearState s).width
        rw [getD_bset_length]
        exact h1.cols i hi
      · intro _
        rfl
      · intro hpe
        exact h1.peOK hpe
      · intro y' x'
        show bget (bset (clearState s).board _ _ 0) y' x' = 2 ↔
          (none : Option (Int × Int)) = some ((y' : Int), (x' : Int))
        rw [bget_bset]
        constructor
        · intro hval
          exfalso
          split at hval
          · exact absurd hval (by decide)
          · next hcnd =>
            have hsome := (h1.startOK y' x').mp hval
            rw [hstart] at hsome
            injection hsome with he
            have hy' : y' = (p.2.fdiv PIXELS_PER_UNIT).toNat :=
              Nat.cast_injective (congrArg Prod.fst he).symm
            have hx' : x' = (p.1.fdiv PIXELS_PER_UNIT).toNat :=
              Nat.cast_injective (congrArg Prod.snd he).symm
            exact hcnd ⟨hy', hx', hyt, hxt⟩
        · intro hnone
          exact Option.noConfusion hnone
      · intro y' x'
        show bget (bset (clearState s).board _ _ 0) y' x' = 3 ↔
          (clearState s).end' = some ((y' : Int), (x' : Int))
        rw [bget_iff_bset _ _ _ 0 3 (by decide) (by rw [hc2]; decide) y' x']
        exact h1.endOK y' x'
    · split
      · next hc2 hc3 =>
        have hend : (clearState s).end' =
            some (((p.2.fdiv PIXELS_PER_UNIT).toNat : Int),
                  ((p.1.fdiv PIXELS_PER_UNIT).toNat : Int)) :=
          (h1.endOK _ _).mp hc3
        refine ⟨?_, ?_, ?_, ?_, ?_, ?_⟩
        · show (bset (clearState s).board _ _ 0).length = (clearState s).height
          rw [length_bset]
          exact h1.rows
        · intro i hi
          show ((bset (clearState s).board _ _ 0).getD i []).length =
            (clearState s).width
          rw [getD_bset_length]
          exact h1.cols i hi
        · intro hps
          exact h1.psOK hps
        · intro _
          rfl
        · intro y' x'
          show bget (bset (clearState s).board _ _ 0) y' x' = 2 ↔
            (clearState s).start = some ((y' : Int), (x' : Int))
          rw [bget_iff_bset _ _ _ 0 2 (by decide) hc2 y' x']
          exact h1.startOK y' x'
        · intro y' x'
          show bget (bset (clearState s).board _ _ 0) y' x' = 3 ↔
            (none : Option (Int × Int)) = some ((y' : Int), (x' : Int))
          rw [bget_bset]
          constructor
          · intro hval
            exfalso
            split at hval
            · exact absurd hval (by decide)
            · next hcnd =>
              have hsome := (h1.endOK y' x').mp hval
              rw [hend] at hsome
              injection hsome with he
              have hy' : y' = (p.2.fdiv PIXELS_PER_UNIT).toNat :=
                Nat.cast_injective (congrArg Prod.fst he).symm
              have hx' : x' = (p.1.fdiv PIXELS_PER_UNIT).toNat :=
                Nat.cast_injective (congrArg Prod.snd he).symm
              exact hcnd ⟨hy', hx', hyt, hxt⟩
          · intro hnone
            exact Option.noConfusion hnone
      · next hc2 hc3 =>
        refine ⟨?_, ?_, h1.psOK, h1.peOK, ?_, ?_⟩
        · show (bset (clearState s).board _ _ 0).length = (clearState s).height
          rw [length_bset]
          exact h1.rows
        · intro i hi
          show ((bset (clearState s).board _ _ 0).getD i []).length =
            (clearState s).width
          rw [getD_bset_length]
          exact h1.cols i hi
        · intro y' x'
          show bget (bset (clearState s).board _ _ 0) y' x' = 2 ↔
            (clearState s).start = some ((y' : Int), (x' : Int))
          rw [bget_iff_bset _ _ _ 0 2 (by decide) hc2 y' x']
          exact h1.startOK y' x'
        · intro y' x'
          show bget (bset (clearState s).board _ _ 0) y' x' = 3 ↔
            (clearState s).end' = some ((y' : Int), (x' : Int))
          rw [bget_iff_bset _ _ _ 0 3 (by decide) hc3 y' x']
          exact h1.endOK y' x'

theorem get_state_eq_two (s : Board) (h2 : get_state s = 2) :
    s.placing_start = true := by
  unfold get_state at h2
  split at h2
  · next hps => exact hps
  · split at h2
    · exact absurd h2 (by decide)
    · exact absurd h2 (by decide)

theorem get_state_eq_three (s : Board) (h3 : get_state s = 3) :
    s.placing_end = true := by
  unfold get_state at h3
  split at h3
  · exact absurd h3 (by decide)
  · split at h3
    · next hpe => exact hpe
    · exact absurd h3 (by decide)

theorem inv_draw (s : Board) (p : Int × Int) (h : Inv s) :
    Inv { (draw_position s p (get_state s)).2 with
          placing_start := false, placing_end := false } ∧
    ((draw_position s p (get_state s)).1 = 0 ∨
     (draw_position s p (get_state s)).2 = s ∨
     (draw_position s p (get_state s)).2 = clearState s) := by
  have h1 : Inv (clearState s) := inv_clearState s h
  unfold draw_position
  split
  · exact ⟨inv_flags_off s h, Or.inr (Or.inl rfl)⟩
  · next hbnd =>
    push_neg at hbnd
    obtain ⟨hx0, hxw, hy0, hyh⟩ := hbnd
    have hrows : (clearState s).board.length = s.height := by
      have := h1.rows
      rwa [clearState_height] at this
    have hyt : (p.2.fdiv PIXELS_PER_UNIT).toNat < (clearState s).board.length := by
      rw [hrows]
      omega
    have hxt : (p.1.fdiv PIXELS_PER_UNIT).toNat <
        ((clearState s).board.getD (p.2.fdiv PIXELS_PER_UNIT).toNat []).length := by
      have hc := h1.cols (p.2.fdiv PIXELS_PER_UNIT).toNat
        (by rw [clearState_height]; omega)
      rw [clearState_width] at hc
      rw [hc]
      omega
    split
    · exact ⟨inv_flags_off _ h1, Or.inr (Or.inr rfl)⟩
    · next hocc =>
      have hc0 : bget (clearState s).board (p.2.fdiv PIXELS_PER_UNIT).toNat
          (p.1.fdiv PIXELS_PER_UNIT).toNat = 0 := not_not.mp hocc
      split
      · next hv2 =>
        have hps : s.placing_start = true := get_state_eq_two s hv2
        have hsn : s.start = none := h.psOK hps
        have hno2 : ∀ y' x' : Nat, ¬ bget (clearState s).board y' x' = 2 := by
          intro y' x' hval
          have hsome := (h1.startOK y' x').mp hval
          rw [clearState_start, hsn] at hsome
          exact Option.noConfusion hsome
        refine ⟨⟨?_, ?_, ?_, ?_, ?_, ?_⟩, Or.inl rfl⟩
        · show (bset (clearState s).board _ _ _).length = (clearState s).height
          rw [length_bset]
          exact h1.rows
        · intro i hi
          show ((bset (clearState s).board _ _ _).getD i []).length =
            (clearState s).width
          rw [getD_bset_length]
          exact h1.cols i hi
        · intro hc
          exact Bool.noConfusion hc
        · intro hc
          exact Bool.noConfusion hc
        · intro y' x'
          show bget (bset (clearState s).board _ _ _) y' x' = 2 ↔
            some (p.2.fdiv PIXELS_PER_UNIT, p.1.fdiv PIXELS_PER_UNIT) =
              some ((y' : Int), (x' : Int))
          rw [bget_bset]
          constructor
          · intro hval
            split at hval
            · next hcnd =>
              rw [hcnd.1, hcnd.2.1, Int.toNat_of_nonneg hy0,
                Int.toNat_of_nonneg hx0]
            · exact absurd hval (hno2 y' x')
          · intro hsome
            injection hsome with he
            have hey : p.2.fdiv PIXELS_PER_UNIT = (y' : Int) :=
              congrArg Prod.fst he
            have hex : p.1.fdiv PIXELS_PER_UNIT = (x' : Int) :=
              congrArg Prod.snd he
            have hy' : y' = (p.2.fdiv PIXELS_PER_UNIT).toNat := by omega
            have hx' : x' = (p.1.fdiv PIXELS_PER_UNIT).toNat := by omega
            rw [if_pos ⟨hy', hx', hyt, hxt⟩]
            exact hv2
        · intro y' x'
          show bget (bset (clearState s).board _ _ _) y' x' = 3 ↔
            (clearState s).end' = some ((y' : Int), (x' : Int))
          rw [bget_iff_bset _ _ _ _ 3 (by rw [hv2]; decide)
            (by rw [hc0]; decide) y' x']
          exact h1.endOK y' x'
      · split
        · next hv2 hv3 =>
          have hpe : s.placing_end = true := get_state_eq_three s hv3
          have hen : s.end' = none := h.peOK hpe
          have hno3 : ∀ y' x' : Nat, ¬ bget (clearState s).board y' x' = 3 := by
            intro y' x' hval
            have hsome := (h1.endOK y' x').mp hval
            rw [clearState_end, hen] at hsome
            exact Option.noConfusion hsome
          refine ⟨⟨?_, ?_, ?_, ?_, ?_, ?_⟩, Or.inl rfl⟩
          · show (bset (clearState s).board _ _ _).length = (clearState s).height
            rw [length_bset]
            exact h1.rows
          · intro i hi
            show ((bset (clearState s).board _ _ _).getD i []).length =
              (clearState s).width
            rw [getD_bset_length]
            exact h1.cols i hi
          · intro hc
            exact Bool.noConfusion hc
          · intro hc
            exact Bool.noConfusion hc
          · intro y' x'
            show bget (bset (clearState s).board _ _ _) y' x' = 2 ↔
              (clearState s).start = some ((y' : Int), (x' : Int))
            rw [bget_iff_bset _ _ _ _ 2 (by rw [hv3]; decide)
              (by rw [hc0]; decide) y' x']
            exact h1.startOK y' x'
          · intro y' x'
            show bget (bset (clearState s).board _ _ _) y' x' = 3 ↔
              some (p.2.fdiv PIXELS_PER_UNIT, p.1.fdiv PIXELS_PER_UNIT) =
                some ((y' : Int), (x' : Int))
            rw [bget_bset]
            constructor
            · intro hval
              split at hval
              · next hcnd =>
                rw [hcnd.1, hcnd.2.1, Int.toNat_of_nonneg hy0,
                  Int.toNat_of_nonneg hx0]
              · exact absurd hval (hno3 y' x')
            · intro hsome
              injection hsome with he
              have hey : p.2.fdiv PIXELS_PER_UNIT = (y' : Int) :=
                congrArg Prod.fst he
              have hex : p.1.fdiv PIXELS_PER_UNIT = (x' : Int) :=
                congrArg Prod.snd he
              have hy' : y' = (p.2.fdiv PIXELS_PER_UNIT).toNat := by omega
              have hx' : x' = (p.1.fdiv PIXELS_PER_UNIT).toNat := by omega
              rw [if_pos ⟨hy', hx', hyt, hxt⟩]
              exact hv3
        · next hv2 hv3 =>
          refine ⟨⟨?_, ?_, ?_, ?_, ?_, ?_⟩, Or.inl rfl⟩
          · show (bset (clearState s).board _ _ _).length = (clearState s).height
            rw [length_bset]
            exact h1.rows
          · intro i hi
            show ((bset (clearState s).board _ _ _).getD i []).length =
              (clearState s).width
            rw [getD_bset_length]
            exact h1.cols i hi
          · intro hc
            exact Bool.noConfusion hc
          · intro hc
            exact Bool.noConfusion hc
          · intro y' x'
            show bget (bset (clearState s).board _ _ _) y' x' = 2 ↔
              (clearState s).start = some ((y' : Int), (x' : Int))
            rw [bget_iff_bset _ _ _ _ 2 hv2 (by rw [hc0]; decide) y' x']
            exact h1.startOK y' x'
          · intro y' x'
            show bget (bset (clearState s).board _ _ _) y' x' = 3 ↔
              (clearState s).end' = some ((y' : Int), (x' : Int))
            rw [bget_iff_bset _ _ _ _ 3 hv3 (by rw [hc0]; decide) y' x']
            exact h1.endOK y' x'

theorem inv_primary (s : Board) (p : Int × Int) (h : Inv s) :
    Inv (step s (.primary p)) := by
  show Inv (if (draw_position s p (get_state s)).1 = 0 then
      { (draw_position s p (get_state s)).2 with
        placing_start := false, placing_end := false }
    else (draw_position s p (get_state s)).2)
  rcases inv_draw s p h with ⟨hflags, hdisj⟩
  split
  · exact hflags
  · next hne =>
    rcases hdisj with h0 | hs | hcs
    · exact absurd h0 hne
    · rw [hs]
      exact h
    · rw [hcs]
      exact inv_clearState s h

theorem inv_step (s : Board) (a : Act) (h : Inv s) : Inv (step s a) := by
  cases a with
  | placeStart => exact inv_place_start s h
  | placeEnd => exact inv_place_end s h
  | primary p => exact inv_primary s p h
  | secondary p => exact inv_erase s p h
  | runA f => exact inv_run f s h
  | reset => exact inv_reset s h
  | toggleDiag => exact inv_toggle s h

theorem inv_applyActs : ∀ (acts : List Act) (s : Board),
    Inv s → Inv (applyActs s acts) := by
  intro acts
  induction acts with
  | nil =>
    intro s h
    exact h
  | cons a as ih =>
    intro s h
    exact ih _ (inv_step s a h)

/-! ## Claim C4 -/

/-- Claim C4: in every state reachable from a fresh board by driver actions
(place-start/place-end requests, primary paints, secondary erases, runs,
resets, diagonal toggles), at most one cell holds START and at most one holds
END, and the cached `start`/`end` references agree exactly with those
cells. -/
theorem c4_endpoint_uniqueness (w h : Nat) (acts : List Act) :
    (∀ y₁ x₁ y₂ x₂ : Nat,
      bget (applyActs (mkBoard w h) acts).board y₁ x₁ = 2 →
      bget (applyActs (mkBoard w h) acts).board y₂ x₂ = 2 →
      y₁ = y₂ ∧ x₁ = x₂) ∧
    (∀ y₁ x₁ y₂ x₂ : Nat,
      bget (applyActs (mkBoard w h) acts).board y₁ x₁ = 3 →
      bget (applyActs (mkBoard w h) acts).board y₂ x₂ = 3 →
      y₁ = y₂ ∧ x₁ = x₂) ∧
    (∀ y x : Nat, bget (applyActs (mkBoard w h) acts).board y x = 2 ↔
      (applyActs (mkBoard w h) acts).start = some ((y : Int), (x : Int))) ∧
    (∀ y x : Nat, bget (applyActs (mkBoard w h) acts).board y x = 3 ↔
      (applyActs (mkBoard w h) acts).end' = some ((y : Int), (x : Int))) := by
  have hinv := inv_applyActs acts (mkBoard w h) (inv_mk w h)
  refine ⟨?_, ?_, hinv.startOK, hinv.endOK⟩
  · intro y₁ x₁ y₂ x₂ hb1 hb2
    have e1 := (hinv.startOK y₁ x₁).mp hb1
    have e2 := (hinv.startOK y₂ x₂).mp hb2
    rw [e1] at e2
    injection e2 with he
    exact ⟨Nat.cast_injective (congrArg Prod.fst he),
      Nat.cast_injective (congrArg Prod.snd he)⟩
  · intro y₁ x₁ y₂ x₂ hb1 hb2
    have e1 := (hinv.endOK y₁ x₁).mp hb1
    have e2 := (hinv.endOK y₂ x₂).mp hb2
    rw [e1] at e2
    injection e2 with he
    exact ⟨Nat.cast_injective (congrArg Prod.fst he),
      Nat.cast_injective (congrArg Prod.snd he)⟩

/-- Witness for `c4_endpoint_uniqueness` after placing a start on a fresh
2×2 board. -/
theorem c4_endpoint_uniqueness_witness :
    bget (applyActs (mkBoard 2 2) [.placeStart, .primary (0, 0)]).board 0 0 = 2 ↔
      (applyActs (mkBoard 2 2) [.placeStart, .primary (0, 0)]).start =
        some ((0 : Int), (0 : Int)) :=
  (c4_endpoint_uniqueness 2 2 [.placeStart, .primary (0, 0)]).2.2.1 0 0

/-! ## Soundness of the exact total-cost comparison

The source compares `total_cost = cost + math.sqrt(squared distance)` as
floats; the embedding stores the pair `(cost, squared distance)` and compares
with `leF`.  The next lemma shows `leF` decides exactly the real-number
comparison of `cost + √(squared distance)`. -/

theorem leF_iff_real (c₁ s₁ c₂ s₂ : Nat) :
    leF c₁ s₁ c₂ s₂ = true ↔
      (c₁ : ℝ) + Real.sqrt s₁ ≤ (c₂ : ℝ) + Real.sqrt s₂ := by
  have hs₁ : Real.sqrt (s₁ : ℝ) ^ 2 = (s₁ : ℝ) :=
    Real.sq_sqrt (by positivity)
  have hs₂ : Real.sqrt (s₂ : ℝ) ^ 2 = (s₂ : ℝ) :=
    Real.sq_sqrt (by positivity)
  have hn₁ : 0 ≤ Real.sqrt (s₁ : ℝ) := Real.sqrt_nonneg _
  have hn₂ : 0 ≤ Real.sqrt (s₂ : ℝ) := Real.sqrt_nonneg _
  unfold leF
  split
  · next hc =>
    have hD : ((c₂ - c₁ : Nat) : ℝ) = (c₂ : ℝ) - c₁ := by
      push_cast [Nat.cast_sub hc]
      ring
    have hkey : ((c₁ : ℝ) + Real.sqrt s₁ ≤ (c₂ : ℝ) + Real.sqrt s₂) ↔
        Real.sqrt s₁ ≤ ((c₂ - c₁ : Nat) : ℝ) + Real.sqrt s₂ := by
      rw [hD]
      constructor <;> intro <;> linarith
    have hsq : (Real.sqrt s₁ ≤ ((c₂ - c₁ : Nat) : ℝ) + Real.sqrt s₂) ↔
        (s₁ : ℝ) ≤ (((c₂ - c₁ : Nat) : ℝ) + Real.sqrt s₂) ^ 2 :=
      Real.sqrt_le_left (by positivity)
    have hexp : (((c₂ - c₁ : Nat) : ℝ) + Real.sqrt s₂) ^ 2 =
        ((c₂ - c₁ : Nat) : ℝ) * ((c₂ - c₁ : Nat) : ℝ) +
          2 * ((c₂ - c₁ : Nat) : ℝ) * Real.sqrt s₂ + (s₂ : ℝ) := by
      rw [add_sq, hs₂]
      ring
    rw [hkey, hsq, hexp]
    split
    · next hs =>
      have hcast : (s₁ : ℝ) ≤ ((c₂ - c₁) * (c₂ - c₁) : Nat) + (s₂ : ℝ) := by
        exact_mod_cast Nat.cast_le.mpr hs
      constructor
      · intro _
        push_cast at hcast
        nlinarith [mul_nonneg (mul_nonneg (by norm_num : (0:ℝ) ≤ 2)
          (by positivity : (0:ℝ) ≤ ((c₂ - c₁ : Nat) : ℝ))) hn₂]
      · intro _
        rfl
    · next hs =>
      have hge : (c₂ - c₁) * (c₂ - c₁) + s₂ ≤ s₁ := le_of_lt (Nat.not_le.mp hs)
      have hE : ((s₁ - ((c₂ - c₁) * (c₂ - c₁) + s₂) : Nat) : ℝ) =
          (s₁ : ℝ) - (((c₂ - c₁ : Nat) : ℝ) * ((c₂ - c₁ : Nat) : ℝ) + s₂) := by
        push_cast [Nat.cast_sub hge]
        ring
      have hEnn : (0 : ℝ) ≤ ((s₁ - ((c₂ - c₁) * (c₂ - c₁) + s₂) : Nat) : ℝ) := by
        positivity
      have hroot : Real.sqrt (4 * (((c₂ - c₁ : Nat) : ℝ) *
          ((c₂ - c₁ : Nat) : ℝ)) * s₂) =
          2 * ((c₂ - c₁ : Nat) : ℝ) * Real.sqrt s₂ := by
        rw [show 4 * (((c₂ - c₁ : Nat) : ℝ) * ((c₂ - c₁ : Nat) : ℝ)) * (s₂ : ℝ) =
            (2 * ((c₂ - c₁ : Nat) : ℝ)) ^ 2 * s₂ by ring,
          Real.sqrt_mul (by positivity), Real.sqrt_sq (by positivity)]
      have hle := Real.le_sqrt hEnn
        (by positivity : (0 : ℝ) ≤ 4 * (((c₂ - c₁ : Nat) : ℝ) *
          ((c₂ - c₁ : Nat) : ℝ)) * s₂)
      rw [hroot] at hle
      rw [decide_eq_true_eq]
      constructor
      · intro hnat
        have hr : ((s₁ - ((c₂ - c₁) * (c₂ - c₁) + s₂) : Nat) : ℝ) ^ 2 ≤
            4 * (((c₂ - c₁ : Nat) : ℝ) * ((c₂ - c₁ : Nat) : ℝ)) * s₂ := by
          exact_mod_cast Nat.cast_le.mpr hnat
        have := hle.mpr hr
        rw [hE] at this
        linarith
      · intro hr
        have h2 : ((s₁ - ((c₂ - c₁) * (c₂ - c₁) + s₂) : Nat) : ℝ) ≤
            2 * ((c₂ - c₁ : Nat) : ℝ) * Real.sqrt s₂ := by
          rw [hE]
          linarith
        have h3 := hle.mp h2
        exact_mod_cast h3
  · next hc =>
    have hlt : c₂ < c₁ := Nat.not_le.mp hc
    have hD : ((c₁ - c₂ : Nat) : ℝ) = (c₁ : ℝ) - c₂ := by
      push_cast [Nat.cast_sub (le_of_lt hlt)]
      ring
    have hkey : ((c₁ : ℝ) + Real.sqrt s₁ ≤ (c₂ : ℝ) + Real.sqrt s₂) ↔
        ((c₁ - c₂ : Nat) : ℝ) + Real.sqrt s₁ ≤ Real.sqrt s₂ := by
      rw [hD]
      constructor <;> intro <;> linarith
    have hsq : (((c₁ - c₂ : Nat) : ℝ) + Real.sqrt s₁ ≤ Real.sqrt s₂) ↔
        (((c₁ - c₂ : Nat) : ℝ) + Real.sqrt s₁) ^ 2 ≤ (s₂ : ℝ) :=
      Real.le_sqrt (by positivity) (by positivity)
    have hexp : (((c₁ - c₂ : Nat) : ℝ) + Real.sqrt s₁) ^ 2 =
        ((c₁ - c₂ : Nat) : ℝ) * ((c₁ - c₂ : Nat) : ℝ) +
          2 * ((c₁ - c₂ : Nat) : ℝ) * Real.sqrt s₁ + (s₁ : ℝ) := by
      rw [add_sq, hs₁]
      ring
    rw [hkey, hsq, hexp]
    split
    · next hs =>
      have hcast : (s₂ : ℝ) < ((c₁ - c₂) * (c₁ - c₂) : Nat) + (s₁ : ℝ) := by
        exact_mod_cast Nat.cast_lt.mpr hs
      constructor
      · intro hfalse
        exact Bool.noConfusion hfalse
      · intro hr
        exfalso
        push_cast at hcast
        nlinarith [mul_nonneg (mul_nonneg (by norm_num : (0:ℝ) ≤ 2)
          (by positivity : (0:ℝ) ≤ ((c₁ - c₂ : Nat) : ℝ))) hn₁]
    · next hs =>
      have hge : (c₁ - c₂) * (c₁ - c₂) + s₁ ≤ s₂ := Nat.not_lt.mp hs
      have hE : ((s₂ - ((c₁ - c₂) * (c₁ - c₂) + s₁) : Nat) : ℝ) =
          (s₂ : ℝ) - (((c₁ - c₂ : Nat) : ℝ) * ((c₁ - c₂ : Nat) : ℝ) + s₁) := by
        push_cast [Nat.cast_sub hge]
        ring
      have hroot : Real.sqrt (4 * (((c₁ - c₂ : Nat) : ℝ) *
          ((c₁ - c₂ : Nat) : ℝ)) * s₁) =
          2 * ((c₁ - c₂ : Nat) : ℝ) * Real.sqrt s₁ := by
        rw [show 4 * (((c₁ - c₂ : Nat) : ℝ) * ((c₁ - c₂ : Nat) : ℝ)) * (s₁ : ℝ) =
            (2 * ((c₁ - c₂ : Nat) : ℝ)) ^ 2 * s₁ by ring,
          Real.sqrt_mul (by positivity), Real.sqrt_sq (by positivity)]
      have hle := Real.sqrt_le_left
        (by positivity : (0 : ℝ) ≤ ((s₂ - ((c₁ - c₂) * (c₁ - c₂) + s₁) : Nat) : ℝ))
        (x := 4 * (((c₁ - c₂ : Nat) : ℝ) * ((c₁ - c₂ : Nat) : ℝ)) * s₁)
      rw [hroot] at hle
      rw [decide_eq_true_eq]
      constructor
      · intro hnat
        have hr : 4 * (((c₁ - c₂ : Nat) : ℝ) * ((c₁ - c₂ : Nat) : ℝ)) * s₁ ≤
            ((s₂ - ((c₁ - c₂) * (c₁ - c₂) + s₁) : Nat) : ℝ) ^ 2 := by
          exact_mod_cast Nat.cast_le.mpr hnat
        have := hle.mpr hr
        rw [hE] at this
        linarith
      · intro hr
        have h2 : 2 * ((c₁ - c₂ : Nat) : ℝ) * Real.sqrt s₁ ≤
            ((s₂ - ((c₁ - c₂) * (c₁ - c₂) + s₁) : Nat) : ℝ) := by
          rw [hE]
          linarith
        have h3 := hle.mp h2
        exact_mod_cast h3

/-- The strict comparison `ltF` likewise decides the strict real
comparison. -/
theorem ltF_iff_real (c₁ s₁ c₂ s₂ : Nat) :
    ltF c₁ s₁ c₂ s₂ = true ↔
      (c₁ : ℝ) + Real.sqrt s₁ < (c₂ : ℝ) + Real.sqrt s₂ := by
  unfold ltF
  rw [Bool.not_eq_true', ← Bool.not_eq_true, not_iff_comm, not_lt,
    Iff.comm]
  exact leF_iff_real c₂ s₂ c₁ s₁

end AStar
